import Mathlib

set_option maxHeartbeats 1000000

namespace ExamDB

/-- Classification record stored in the exam_classification collection by
server.js: exam_name key, tube and instructions strings (instructions is
defaulted to the empty string at write time by the main variant). -/
structure ClassificationRecord where
  exam_name : String
  tube : String
  instructions : String
deriving DecidableEq, Repr

/-- Unique-exam registry record stored in the unique_exams collection:
exam_name key, exam_code, optional added_by (the POST /api/exams/unique
variant sets no added_by field at all) and added_at timestamp. -/
structure UniqueExamRecord where
  exam_name : String
  exam_code : String
  added_by : Option String
  added_at : Nat
deriving DecidableEq, Repr

/-- The two MongoDB collections of motorizadoDB used by server.js; list
order is the natural (insertion) order of the documents. -/
structure DB where
  classifications : List ClassificationRecord
  uniques : List UniqueExamRecord
deriving DecidableEq, Repr

/-- JavaScript truthiness test for an optional string request field: an
absent value and the empty string are falsy. -/
def jsFalsyStr : Option String → Bool
  | none => true
  | some s => s == ""

/-- JavaScript expression x || d for an optional string x: yields d when x
is absent or empty, otherwise the string itself. -/
def jsOr (x : Option String) (d : String) : String :=
  match x with
  | none => d
  | some s => if s == "" then d else s

/-- MongoDB updateOne with filter on exam_name and a $set of
tube/instructions, upsert enabled: replace those fields of the first
matching document, or append a new document when none matches
(server.js POST /api/exams/classify). -/
def setClassification (l : List ClassificationRecord) (n t i : String) :
    List ClassificationRecord :=
  match l with
  | [] => [⟨n, t, i⟩]
  | r :: rs =>
    if r.exam_name == n then ⟨r.exam_name, t, i⟩ :: rs
    else r :: setClassification rs n t i

/-- Test whether some stored registry document matches the updateOne
filter on exam_name. -/
def hasName (l : List UniqueExamRecord) (n : String) : Bool :=
  l.any (fun r => r.exam_name == n)

/-- MongoDB ordered bulkWrite of updateOne operations whose update is a
$setOnInsert with upsert enabled: each operation, in order, inserts its
document only when no stored document matches its exam_name, and the
result's upsertedCount counts the inserted ones. -/
def bulkSetOnInsert :
    List UniqueExamRecord → List UniqueExamRecord → List UniqueExamRecord × Nat
  | l, [] => (l, 0)
  | l, r :: ops =>
    if hasName l r.exam_name then bulkSetOnInsert l ops
    else
      let p := bulkSetOnInsert (l ++ [r]) ops
      (p.1, p.2 + 1)

/-- Response of the bulk registry endpoints: HTTP status, processed count
(exams.length in the response message) and inserted count (the bulkWrite
result's upsertedCount). -/
structure BulkResp where
  status : Nat
  processed : Nat
  inserted : Nat
deriving DecidableEq, Repr

/-- POST /api/exams/classify: 503 when the collection handle is unset, 400
when exam_name or tube is falsy, otherwise upsert of the classification
with instructions defaulted to the empty string. -/
def postClassify (st : Option DB) (exam_name tube instructions : Option String) :
    Nat × Option DB :=
  match st with
  | none => (503, none)
  | some db =>
    match exam_name, tube with
    | some en, some tb =>
      if en == "" || tb == "" then (400, some db)
      else
        let cls := setClassification db.classifications en tb (jsOr instructions "")
        (200, some { db with classifications := cls })
    | _, _ => (400, some db)

/-- GET /api/exams/classification/all: projection of every classification
document, in natural order. -/
def getAllClassifications (st : Option DB) :
    (Nat × List ClassificationRecord) × Option DB :=
  match st with
  | none => ((503, []), none)
  | some db => ((200, db.classifications), some db)

/-- GET /api/exams/classify/:exam_name: findOne by exam_name, 404 when no
document matches. -/
def getClassifyExam (st : Option DB) (n : String) :
    (Nat × Option ClassificationRecord) × Option DB :=
  match st with
  | none => ((503, none), none)
  | some db =>
    match db.classifications.find? (fun r => r.exam_name == n) with
    | some r => ((200, some r), some db)
    | none => ((404, none), some db)

/-- GET /api/exams/all-unique: find with projection to exam_name,
exam_code, added_by and added_at, with no sort stage. -/
def getAllUnique (st : Option DB) :
    (Nat × List UniqueExamRecord) × Option DB :=
  match st with
  | none => ((503, []), none)
  | some db => ((200, db.uniques), some db)

/-- POST /api/exams/save-unique: bulk $setOnInsert of the submitted names
with exam_code fixed to the N/A marker, added_by defaulted to Sistema and
added_at set to the current time. A missing or non-array exams field and
an empty array are rejected with 400. -/
def saveUnique (st : Option DB) (exams : Option (List String))
    (added_by : Option String) (now : Nat) : BulkResp × Option DB :=
  match st with
  | none => (⟨503, 0, 0⟩, none)
  | some db =>
    match exams with
    | none => (⟨400, 0, 0⟩, some db)
    | some names =>
      if names.length == 0 then (⟨400, 0, 0⟩, some db)
      else
        let ops := names.map (fun nm =>
          UniqueExamRecord.mk nm "N/A" (some (jsOr added_by "Sistema")) now)
        let p := bulkSetOnInsert db.uniques ops
        (⟨200, names.length, p.2⟩, some { db with uniques := p.1 })

/-- Entry of the POST /api/exams/unique body: an exam_name together with
an optional exam_code. -/
structure ExamEntry where
  exam_name : String
  exam_code : Option String
deriving DecidableEq, Repr

/-- POST /api/exams/unique: bulk $setOnInsert of the submitted entries
with exam_code defaulted to the N/A marker, added_at set to the current
time and no added_by field. A missing or non-array body and an empty
array are rejected with 400. -/
def uniqueEndpoint (st : Option DB) (exams : Option (List ExamEntry)) (now : Nat) :
    BulkResp × Option DB :=
  match st with
  | none => (⟨503, 0, 0⟩, none)
  | some db =>
    match exams with
    | none => (⟨400, 0, 0⟩, some db)
    | some entries =>
      if entries.length == 0 then (⟨400, 0, 0⟩, some db)
      else
        let ops := entries.map (fun e =>
          UniqueExamRecord.mk e.exam_name (jsOr e.exam_code "N/A") none now)
        let p := bulkSetOnInsert db.uniques ops
        (⟨200, entries.length, p.2⟩, some { db with uniques := p.1 })

/-- Item of the /api/exams/guide response. -/
structure GuideItem where
  exam_name : String
  exam_code : String
  tube : String
  instructions : String
deriving DecidableEq, Repr

/-- classificationMap built by the reduce in the guide handler, observed
through lookup: a later document with the same exam_name overwrites an
earlier one. -/
def classificationMapLookup (cls : List ClassificationRecord) (n : String) :
    Option (String × String) :=
  cls.foldl
    (fun acc r => if r.exam_name == n then some (r.tube, r.instructions) else acc)
    none

/-- GET /api/exams/guide: join of the registry with the classification
map, defaulting a missing classification to tube Pendiente and empty
instructions. -/
def getExamGuide (st : Option DB) : (Nat × List GuideItem) × Option DB :=
  match st with
  | none => ((503, []), none)
  | some db =>
    ((200, db.uniques.map (fun e =>
      match classificationMapLookup db.classifications e.exam_name with
      | some ti => ⟨e.exam_name, e.exam_code, ti.1, ti.2⟩
      | none => ⟨e.exam_name, e.exam_code, "Pendiente", ""⟩)), some db)

/-- Classification record of the part_000 variant, whose POST handler may
store an absent tube or instructions value. -/
structure ClassRecordP where
  exam_name : String
  tube : Option String
  instructions : Option String
deriving DecidableEq, Repr

/-- updateOne with a $set of the possibly-absent tube/instructions values,
upsert enabled (part_000 POST /api/classification). -/
def setClassificationP (l : List ClassRecordP) (n : String)
    (t i : Option String) : List ClassRecordP :=
  match l with
  | [] => [⟨n, t, i⟩]
  | r :: rs =>
    if r.exam_name == n then ⟨r.exam_name, t, i⟩ :: rs
    else r :: setClassificationP rs n t i

/-- Key-order-preserving insertion into a JavaScript object literal used
as a map: an existing key keeps its position and takes the new value, a
new key is appended. -/
def objInsert (m : List (String × Option String × Option String))
    (k : String) (v : Option String × Option String) :
    List (String × Option String × Option String) :=
  if m.any (fun p => p.1 == k) then
    m.map (fun p => if p.1 == k then (k, v) else p)
  else m ++ [(k, v)]

/-- dataMap built by the reduce in part_000 GET /api/classification. -/
def dataMapP (l : List ClassRecordP) :
    List (String × Option String × Option String) :=
  l.foldl (fun acc r => objInsert acc r.exam_name (r.tube, r.instructions)) []

/-- GET /api/classification of part_000: 503 when the collection handle is
unset, otherwise the classifications as a keyed map. -/
def getClassificationAllP (st : Option (List ClassRecordP)) :
    (Nat × List (String × Option String × Option String)) ×
      Option (List ClassRecordP) :=
  match st with
  | none => ((503, []), none)
  | some l => ((200, dataMapP l), some l)

/-- POST /api/classification of part_000: 503 when the collection handle
is unset, 400 when exam_name is falsy, otherwise upsert keeping tube and
instructions exactly as submitted (possibly absent). -/
def postClassificationP (st : Option (List ClassRecordP))
    (exam_name tube instructions : Option String) :
    Nat × Option (List ClassRecordP) :=
  match st with
  | none => (503, none)
  | some l =>
    match exam_name with
    | some en =>
      if en == "" then (400, some l)
      else (200, some (setClassificationP l en tube instructions))
    | none => (400, some l)

/-- Number of stored registry documents whose exam_name matches n. -/
def countName (l : List UniqueExamRecord) (n : String) : Nat :=
  (l.filter (fun r => r.exam_name == n)).length

theorem hasName_append (a b : List UniqueExamRecord) (n : String) :
    hasName (a ++ b) n = (hasName a n || hasName b n) := by
  simp [hasName, List.any_append]

theorem hasName_eq_false_iff (l : List UniqueExamRecord) (n : String) :
    hasName l n = false ↔ ∀ r ∈ l, r.exam_name ≠ n := by
  simp [hasName]

theorem countName_append (a b : List UniqueExamRecord) (n : String) :
    countName (a ++ b) n = countName a n + countName b n := by
  simp [countName, List.filter_append]

theorem countName_eq_zero (l : List UniqueExamRecord) (n : String)
    (h : hasName l n = false) : countName l n = 0 := by
  have hnil : l.filter (fun r => r.exam_name == n) = [] := by
    rw [List.filter_eq_nil_iff]
    intro r hr
    simpa using (hasName_eq_false_iff l n).mp h r hr
  simp [countName, hnil]

theorem bulk_spec (ops : List UniqueExamRecord) :
    ∀ l : List UniqueExamRecord, ∃ t,
      (bulkSetOnInsert l ops).1 = l ++ t ∧
      (bulkSetOnInsert l ops).2 = t.length ∧
      ∀ r ∈ t, r ∈ ops ∧ hasName l r.exam_name = false := by
  induction ops with
  | nil =>
    intro l
    exact ⟨[], by simp [bulkSetOnInsert], by simp [bulkSetOnInsert], by simp⟩
  | cons r ops ih =>
    intro l
    by_cases h : hasName l r.exam_name = true
    · obtain ⟨t, h1, h2, h3⟩ := ih l
      refine ⟨t, ?_, ?_, ?_⟩
      · simpa [bulkSetOnInsert, h] using h1
      · simpa [bulkSetOnInsert, h] using h2
      · intro x hx
        exact ⟨List.mem_cons_of_mem _ (h3 x hx).1, (h3 x hx).2⟩
    · obtain ⟨t, h1, h2, h3⟩ := ih (l ++ [r])
      have hb : hasName l r.exam_name = false := by simpa using h
      refine ⟨r :: t, ?_, ?_, ?_⟩
      · simp only [bulkSetOnInsert, hb]
        simp [h1, List.append_assoc]
      · simp only [bulkSetOnInsert, hb]
        simp [h2]
      · intro x hx
        rcases List.mem_cons.mp hx with hx | hx
        · subst hx
          exact ⟨List.mem_cons_self _ _, hb⟩
        · have hx3 := h3 x hx
          have hf : hasName l x.exam_name = false := by
            have := hx3.2
            rw [hasName_append] at this
            exact (Bool.or_eq_false_iff.mp this).1
          exact ⟨List.mem_cons_of_mem _ hx3.1, hf⟩

theorem bulk_of_all_present (ops : List UniqueExamRecord) :
    ∀ l, (∀ r ∈ ops, hasName l r.exam_name = true) →
      bulkSetOnInsert l ops = (l, 0) := by
  induction ops with
  | nil => intro l _; rfl
  | cons r ops ih =>
    intro l h
    have hr : hasName l r.exam_name = true := h r (List.mem_cons_self _ _)
    simp only [bulkSetOnInsert, hr, if_true]
    exact ih l (fun x hx => h x (List.mem_cons_of_mem _ hx))

theorem bulk_names_after (ops : List UniqueExamRecord) :
    ∀ l, ∀ r ∈ ops, hasName (bulkSetOnInsert l ops).1 r.exam_name = true := by
  induction ops with
  | nil =>
    intro l r hr
    cases hr
  | cons a ops ih =>
    intro l r hr
    by_cases ha : hasName l a.exam_name = true
    · rcases List.mem_cons.mp hr with hr | hr
      · subst hr
        obtain ⟨t, h1, _, _⟩ := bulk_spec ops l
        simp only [bulkSetOnInsert, ha, if_true]
        rw [h1, hasName_append, ha]
        simp
      · simpa [bulkSetOnInsert, ha] using ih l r hr
    · have hb : hasName l a.exam_name = false := by simpa using ha
      rcases List.mem_cons.mp hr with hr | hr
      · subst hr
        obtain ⟨t, h1, _, _⟩ := bulk_spec ops (l ++ [r])
        have hone : hasName [r] r.exam_name = true := by simp [hasName]
        simp [bulkSetOnInsert, hb, h1, hasName_append, hone]
        simp [hasName]
      · have hres : (bulkSetOnInsert l (a :: ops)).1 = (bulkSetOnInsert (l ++ [a]) ops).1 := by
          simp [bulkSetOnInsert, hb]
        rw [hres]
        exact ih (l ++ [a]) r hr

theorem bulk_countName_new (ops : List UniqueExamRecord) (n : String) :
    ∀ l, hasName l n = false →
      countName (bulkSetOnInsert l ops).1 n =
        (if ops.any (fun r => r.exam_name == n) then 1 else 0) := by
  induction ops with
  | nil =>
    intro l h
    simp [bulkSetOnInsert, countName_eq_zero l n h]
  | cons r ops ih =>
    intro l h
    by_cases hr : hasName l r.exam_name = true
    · have hne : (r.exam_name == n) = false := by
        rw [beq_eq_false_iff_ne]
        intro hc
        rw [hc] at hr
        rw [hr] at h
        cases h
      simp only [bulkSetOnInsert, hr, if_true, List.any_cons, hne, Bool.false_or]
      exact ih l h
    · have hb : hasName l r.exam_name = false := by simpa using hr
      by_cases heq : r.exam_name = n
      · obtain ⟨t, h1, _, h3⟩ := bulk_spec ops (l ++ [r])
        have hcl : countName l n = 0 := countName_eq_zero l n h
        have hcr : countName [r] n = 1 := by simp [countName, heq]
        have hct : countName t n = 0 := by
          apply countName_eq_zero
          rw [hasName_eq_false_iff]
          intro x hx
          have hx2 := (h3 x hx).2
          rw [hasName_append] at hx2
          have hx3 := (Bool.or_eq_false_iff.mp hx2).2
          simp only [hasName, List.any_cons, List.any_nil, Bool.or_false] at hx3
          intro hxn
          rw [beq_eq_false_iff_ne] at hx3
          exact hx3 (heq.trans hxn.symm)
        have hany : (r :: ops).any (fun x => x.exam_name == n) = true := by
          simp [List.any_cons, heq]
        have hres : (bulkSetOnInsert l (r :: ops)).1 = l ++ [r] ++ t := by
          simp [bulkSetOnInsert, hb, h1]
        rw [hres, countName_append, countName_append, hcl, hcr, hct, hany]
        simp
      · have hbn : hasName (l ++ [r]) n = false := by
          rw [hasName_append, h]
          simp [hasName, heq]
        have hne : (r.exam_name == n) = false := by
          rw [beq_eq_false_iff_ne]
          exact heq
        have hres : (bulkSetOnInsert l (r :: ops)).1 = (bulkSetOnInsert (l ++ [r]) ops).1 := by
          simp [bulkSetOnInsert, hb]
        rw [hres, ih (l ++ [r]) hbn]
        simp [List.any_cons, hne]

theorem setClassification_idem (l : List ClassificationRecord) (n t i : String) :
    setClassification (setClassification l n t i) n t i =
      setClassification l n t i := by
  induction l with
  | nil => simp [setClassification]
  | cons r rs ih =>
    by_cases h : r.exam_name == n
    · simp [setClassification, h]
    · simp [setClassification, h, ih]

theorem setClassificationP_idem (l : List ClassRecordP) (n : String)
    (t i : Option String) :
    setClassificationP (setClassificationP l n t i) n t i =
      setClassificationP l n t i := by
  induction l with
  | nil => simp [setClassificationP]
  | cons r rs ih =>
    by_cases h : r.exam_name == n
    · simp [setClassificationP, h]
    · simp [setClassificationP, h, ih]

theorem find_after_set (l : List ClassificationRecord) (n t i : String) :
    (setClassification l n t i).find? (fun r => r.exam_name == n) =
      some ⟨n, t, i⟩ := by
  induction l with
  | nil => simp [setClassification, List.find?]
  | cons r rs ih =>
    by_cases h : r.exam_name == n
    · have hn : r.exam_name = n := by simpa using h
      simp [setClassification, h, List.find?, hn]
    · simp [setClassification, h, List.find?, ih]

theorem lookup_foldl_id (cls : List ClassificationRecord) (n : String)
    (h : ∀ c ∈ cls, c.exam_name ≠ n) :
    ∀ acc : Option (String × String),
      cls.foldl
        (fun acc r =>
          if r.exam_name == n then some (r.tube, r.instructions) else acc)
        acc = acc := by
  induction cls with
  | nil => intro acc; rfl
  | cons r rs ih =>
    intro acc
    have hr : (r.exam_name == n) = false := by
      rw [beq_eq_false_iff_ne]
      exact h r (List.mem_cons_self _ _)
    simp only [List.foldl_cons, hr]
    simp only [Bool.false_eq_true, if_false]
    exact ih (fun c hc => h c (List.mem_cons_of_mem _ hc)) acc

theorem classificationMapLookup_eq_none (cls : List ClassificationRecord)
    (n : String) (h : ∀ c ∈ cls, c.exam_name ≠ n) :
    classificationMapLookup cls n = none :=
  lookup_foldl_id cls n h none

theorem lookup_foldl_const (cls : List ClassificationRecord) (n : String)
    (c : ClassificationRecord)
    (h : ∀ c' ∈ cls, c'.exam_name = n → c' = c) :
    cls.foldl
      (fun acc r =>
        if r.exam_name == n then some (r.tube, r.instructions) else acc)
      (some (c.tube, c.instructions)) = some (c.tube, c.instructions) := by
  induction cls with
  | nil => rfl
  | cons r rs ih =>
    by_cases hr : r.exam_name == n
    · have hreq : r = c := h r (List.mem_cons_self _ _) (by simpa using hr)
      have hcn : (c.exam_name == n) = true := hreq ▸ hr
      simp only [List.foldl_cons, hreq, hcn, if_true]
      exact ih (fun x hx hxn => h x (List.mem_cons_of_mem _ hx) hxn)
    · have hrf : (r.exam_name == n) = false := by simpa using hr
      simp only [List.foldl_cons, hrf]
      simp only [Bool.false_eq_true, if_false]
      exact ih (fun x hx hxn => h x (List.mem_cons_of_mem _ hx) hxn)

theorem classificationMapLookup_unique (cls : List ClassificationRecord)
    (n : String) (c : ClassificationRecord) (hc : c ∈ cls)
    (hn : c.exam_name = n)
    (huniq : ∀ c' ∈ cls, c'.exam_name = n → c' = c) :
    classificationMapLookup cls n = some (c.tube, c.instructions) := by
  induction cls with
  | nil => cases hc
  | cons r rs ih =>
    by_cases h : r.exam_name == n
    · have hreq : r = c := huniq r (List.mem_cons_self _ _) (by simpa using h)
      have hcn : (c.exam_name == n) = true := hreq ▸ h
      unfold classificationMapLookup
      simp only [List.foldl_cons, hreq, hcn, if_true]
      exact lookup_foldl_const rs n c
        (fun x hx hxn => huniq x (List.mem_cons_of_mem _ hx) hxn)
    · have hrn : r.exam_name ≠ n := by simpa using h
      have hc' : c ∈ rs := by
        rcases List.mem_cons.mp hc with hcr | hcr
        · exact absurd (hcr ▸ hn) hrn
        · exact hcr
      have hrf : (r.exam_name == n) = false := by simpa using h
      unfold classificationMapLookup
      simp only [List.foldl_cons, hrf]
      simp only [Bool.false_eq_true, if_false]
      have := ih hc' (fun x hx hxn => huniq x (List.mem_cons_of_mem _ hx) hxn)
      simpa [classificationMapLookup] using this

/-- C6: when the store handle has not been initialized, every endpoint
handler of both server variants responds with HTTP 503 and performs no
store operation, leaving the stored state unchanged. -/
theorem C6_uninitialized_store_503 (exam_name tube instructions : Option String)
    (n : String) (exams : Option (List String))
    (entries : Option (List ExamEntry)) (ab : Option String) (now now2 : Nat) :
    postClassify none exam_name tube instructions = (503, none) ∧
    getAllClassifications none = ((503, []), none) ∧
    getClassifyExam none n = ((503, none), none) ∧
    getAllUnique none = ((503, []), none) ∧
    saveUnique none exams ab now = (⟨503, 0, 0⟩, none) ∧
    uniqueEndpoint none entries now2 = (⟨503, 0, 0⟩, none) ∧
    getExamGuide none = ((503, []), none) ∧
    getClassificationAllP none = ((503, []), none) ∧
    postClassificationP none exam_name tube instructions = (503, none) :=
  ⟨rfl, rfl, rfl, rfl, rfl, rfl, rfl, rfl, rfl⟩

/-- C4: upserting a classification twice with the same values leaves the
stored classification state after the second call identical to the state
after the first call, for the main POST /api/exams/classify handler and
for the part_000 POST /api/classification handler alike. -/
theorem C4_upsert_idempotent (st : Option DB) (stp : Option (List ClassRecordP))
    (exam_name tube instructions : Option String) :
    (postClassify (postClassify st exam_name tube instructions).2
        exam_name tube instructions).2 =
      (postClassify st exam_name tube instructions).2 ∧
    (postClassificationP (postClassificationP stp exam_name tube instructions).2
        exam_name tube instructions).2 =
      (postClassificationP stp exam_name tube instructions).2 := by
  constructor
  · cases st with
    | none => rfl
    | some db =>
      cases exam_name with
      | none => rfl
      | some en =>
        cases tube with
        | none => rfl
        | some tb =>
          by_cases h : (en == "" || tb == "") = true
          · simp [postClassify, h]
          · simp [postClassify, h, setClassification_idem]
  · cases stp with
    | none => rfl
    | some lp =>
      cases exam_name with
      | none => rfl
      | some en =>
        by_cases h : (en == "") = true
        · simp [postClassificationP, h]
        · simp [postClassificationP, h, setClassificationP_idem]

/-- C2 counterexample: the claim that GET /api/exams/all-unique returns
the registry sorted by exam_name ascending is false: registering the
batch with names B then A into an empty store and reading the registry
back yields the names in the order B, A, which is not ascending. -/
theorem C2_counterexample :
    ¬ List.Sorted (fun a b : String => a ≤ b)
      (((getAllUnique
          (saveUnique (some ⟨[], []⟩) (some ["B", "A"]) (some "Ana") 0).2).1.2).map
        (fun r => r.exam_name)) := by
  have hpay :
      ((getAllUnique
          (saveUnique (some ⟨[], []⟩) (some ["B", "A"]) (some "Ana") 0).2).1.2).map
        (fun r => r.exam_name) = ["B", "A"] := by rfl
  rw [hpay]
  intro h
  have hba : ("B" : String) ≤ "A" := (List.sorted_cons.mp h).1 "A" (by simp)
  rw [String.le_iff_toList_le] at hba
  exact absurd hba (by decide)

/-- C2 amended: GET /api/exams/all-unique returns status 200 with every
stored registry record in the store's natural (insertion) order, not
sorted by exam_name: existing records keep their relative order and a
registration appends its new records after them. -/
theorem C2_amended_natural_order (db : DB) :
    getAllUnique (some db) = ((200, db.uniques), some db) ∧
    ∀ names ab now, ∃ t,
      ((getAllUnique (saveUnique (some db) (some names) ab now).2).1.2) =
        db.uniques ++ t := by
  refine ⟨rfl, ?_⟩
  intro names ab now
  by_cases h : (names.length == 0) = true
  · exact ⟨[], by simp [saveUnique, getAllUnique, h]⟩
  · obtain ⟨t, h1, _, _⟩ := bulk_spec
      (names.map (fun nm =>
        UniqueExamRecord.mk nm "N/A" (some (jsOr ab "Sistema")) now))
      db.uniques
    refine ⟨t, ?_⟩
    simp only [saveUnique, h]
    simp only [Bool.false_eq_true, if_false]
    simpa [getAllUnique] using h1

/-- C7: a classification upsert with a missing required field is rejected
with HTTP 400 and performs no store mutation: the main handler requires
exam_name and tube, the part_000 handler requires exam_name. -/
theorem C7_invalid_input_400 (db : DB) (lp : List ClassRecordP)
    (exam_name tube instructions : Option String) :
    (jsFalsyStr exam_name = true ∨ jsFalsyStr tube = true →
      postClassify (some db) exam_name tube instructions = (400, some db)) ∧
    (jsFalsyStr exam_name = true →
      postClassificationP (some lp) exam_name tube instructions =
        (400, some lp)) := by
  constructor
  · intro h
    cases exam_name with
    | none =>
      cases tube with
      | none => rfl
      | some tb => rfl
    | some en =>
      cases tube with
      | none => rfl
      | some tb =>
        have hcond : (en == "" || tb == "") = true := by
          rcases h with h | h
          · simp only [jsFalsyStr] at h
            simp [h]
          · simp only [jsFalsyStr] at h
            simp [h]
        simp [postClassify, hcond]
  · intro h
    cases exam_name with
    | none => rfl
    | some en =>
      have hcond : (en == "") = true := by simpa [jsFalsyStr] using h
      simp [postClassificationP, hcond]

/-- Witness for C7: a request without an exam_name field against a
concrete store is rejected with 400 by both handlers and the store is
kept unchanged. -/
theorem C7_invalid_input_400_witness :
    postClassify (some ⟨[], []⟩) none (some "Tapa Roja") none =
      (400, some ⟨[], []⟩) ∧
    postClassificationP (some []) none (some "Tapa Roja") none =
      (400, some []) := by
  have h := C7_invalid_input_400 ⟨[], []⟩ [] none (some "Tapa Roja") none
  exact ⟨h.1 (Or.inl rfl), h.2 rfl⟩

/-- C8: GET /api/exams/classify/:exam_name signals 404 exactly when no
stored classification matches the requested name, any record it returns
is a stored record with that name accompanied by status 200, and
immediately after a valid upsert of the name it returns status 200 with
the stored values. -/
theorem C8_get_classification (db : DB) (n : String) (i : Option String) :
    ((getClassifyExam (some db) n).1 = (404, none) ↔
      ∀ c ∈ db.classifications, c.exam_name ≠ n) ∧
    (∀ r, (getClassifyExam (some db) n).1.2 = some r →
      (getClassifyExam (some db) n).1.1 = 200 ∧
        r ∈ db.classifications ∧ r.exam_name = n) ∧
    (∀ tb : String, n ≠ "" → tb ≠ "" →
      (getClassifyExam ((postClassify (some db) (some n) (some tb) i).2) n).1 =
        (200, some ⟨n, tb, jsOr i ""⟩)) := by
  refine ⟨?_, ?_, ?_⟩
  · cases hf : db.classifications.find? (fun r => r.exam_name == n) with
    | none =>
      constructor
      · intro _ c hc
        have hp := List.find?_eq_none.mp hf c hc
        simpa using hp
      · intro _
        simp [getClassifyExam, hf]
    | some r =>
      constructor
      · intro h
        simp [getClassifyExam, hf] at h
      · intro h
        exfalso
        have hmem := List.mem_of_find?_eq_some hf
        have hp := List.find?_some hf
        exact h r hmem (by simpa using hp)
  · intro r hr
    cases hf : db.classifications.find? (fun x => x.exam_name == n) with
    | none => simp [getClassifyExam, hf] at hr
    | some r' =>
      simp only [getClassifyExam, hf] at hr
      have hrr : r' = r := by simpa using hr
      subst hrr
      refine ⟨by simp [getClassifyExam, hf], List.mem_of_find?_eq_some hf, ?_⟩
      have hp := List.find?_some hf
      simpa using hp
  · intro tb hn htb
    have hen : (n == "") = false := by
      rw [beq_eq_false_iff_ne]
      exact hn
    have htbf : (tb == "") = false := by
      rw [beq_eq_false_iff_ne]
      exact htb
    have hstate : (postClassify (some db) (some n) (some tb) i).2 =
        some { db with classifications :=
          setClassification db.classifications n tb (jsOr i "") } := by
      simp [postClassify, hen, htbf]
    rw [hstate]
    simp [getClassifyExam, find_after_set]

/-- Witness for C8: against an empty store the lookup of Glucosa returns
404, and immediately after upserting Glucosa with tube Tapa Roja the
lookup returns 200 with the stored record and empty instructions. -/
theorem C8_get_classification_witness :
    (getClassifyExam (some ⟨[], []⟩) "Glucosa").1 = (404, none) ∧
    (getClassifyExam
        ((postClassify (some ⟨[], []⟩) (some "Glucosa") (some "Tapa Roja")
          none).2) "Glucosa").1 =
      (200, some ⟨"Glucosa", "Tapa Roja", ""⟩) := by
  constructor
  · exact (C8_get_classification ⟨[], []⟩ "Glucosa" none).1.mpr
      (by intro c hc; cases hc)
  · exact (C8_get_classification ⟨[], []⟩ "Glucosa" none).2.2 "Tapa Roja"
      (by decide) (by decide)

/-- C5: each guide item corresponds positionally to its registry entry;
when no stored classification shares the entry's exam_name, the item has
the placeholder tube Pendiente and empty instructions, and when exactly
one classification matches, its tube and instructions are attached. -/
theorem C5_guide_placeholder (db : DB) (idx : Nat) (e : UniqueExamRecord)
    (he : db.uniques[idx]? = some e) :
    ((∀ c ∈ db.classifications, c.exam_name ≠ e.exam_name) →
      ((getExamGuide (some db)).1.2)[idx]? =
        some ⟨e.exam_name, e.exam_code, "Pendiente", ""⟩) ∧
    (∀ c ∈ db.classifications, c.exam_name = e.exam_name →
      (∀ c' ∈ db.classifications, c'.exam_name = e.exam_name → c' = c) →
      ((getExamGuide (some db)).1.2)[idx]? =
        some ⟨e.exam_name, e.exam_code, c.tube, c.instructions⟩) := by
  have hpay : ((getExamGuide (some db)).1.2)[idx]? = some (
      match classificationMapLookup db.classifications e.exam_name with
      | some ti => GuideItem.mk e.exam_name e.exam_code ti.1 ti.2
      | none => GuideItem.mk e.exam_name e.exam_code "Pendiente" "") := by
    simp [getExamGuide, List.getElem?_map, he]
  constructor
  · intro hnone
    have hl := classificationMapLookup_eq_none db.classifications e.exam_name hnone
    rw [hpay, hl]
  · intro c hc hcn huniq
    have hl := classificationMapLookup_unique db.classifications e.exam_name c
      hc hcn huniq
    rw [hpay, hl]

/-- Witness for C5: in a store whose registry holds Glucosa (classified
with tube Tapa Roja) and Urea (unclassified), the guide attaches the
classification to Glucosa and the Pendiente placeholder to Urea. -/
theorem C5_guide_placeholder_witness :
    ((getExamGuide (some ⟨[⟨"Glucosa", "Tapa Roja", "ayunas"⟩],
        [⟨"Glucosa", "N/A", some "Ana", 0⟩,
         ⟨"Urea", "N/A", some "Ana", 0⟩]⟩)).1.2)[1]? =
      some ⟨"Urea", "N/A", "Pendiente", ""⟩ ∧
    ((getExamGuide (some ⟨[⟨"Glucosa", "Tapa Roja", "ayunas"⟩],
        [⟨"Glucosa", "N/A", some "Ana", 0⟩,
         ⟨"Urea", "N/A", some "Ana", 0⟩]⟩)).1.2)[0]? =
      some ⟨"Glucosa", "N/A", "Tapa Roja", "ayunas"⟩ := by
  constructor
  · exact (C5_guide_placeholder ⟨[⟨"Glucosa", "Tapa Roja", "ayunas"⟩],
      [⟨"Glucosa", "N/A", some "Ana", 0⟩, ⟨"Urea", "N/A", some "Ana", 0⟩]⟩ 1
      ⟨"Urea", "N/A", some "Ana", 0⟩ rfl).1 (by decide)
  · exact (C5_guide_placeholder ⟨[⟨"Glucosa", "Tapa Roja", "ayunas"⟩],
      [⟨"Glucosa", "N/A", some "Ana", 0⟩, ⟨"Urea", "N/A", some "Ana", 0⟩]⟩ 0
      ⟨"Glucosa", "N/A", some "Ana", 0⟩ rfl).2
      ⟨"Glucosa", "Tapa Roja", "ayunas"⟩ (by decide) (by decide) (by decide)

theorem filter_bulk_of_present (l ops : List UniqueExamRecord) (n : String)
    (h : hasName l n = true) :
    (bulkSetOnInsert l ops).1.filter (fun r => r.exam_name == n) =
      l.filter (fun r => r.exam_name == n) := by
  obtain ⟨t, h1, _, h3⟩ := bulk_spec ops l
  rw [h1, List.filter_append]
  have ht : t.filter (fun r => r.exam_name == n) = [] := by
    rw [List.filter_eq_nil_iff]
    intro r hr hb
    have hrn : r.exam_name = n := by simpa using hb
    have hf := (h3 r hr).2
    rw [hrn] at hf
    rw [hf] at h
    simp at h
  simp [ht]

/-- C1: a registry record whose exam_name is already stored is left
entirely unchanged (added_by, added_at and exam_code included) by a later
registration through either bulk endpoint whose batch contains that name,
whatever added_by or exam_code values the new batch carries: the stored
records matching that name are exactly the same before and after, and no
second record for the name appears. -/
theorem C1_registry_write_once (db : DB) (names : List String)
    (entries : List ExamEntry) (ab : Option String) (now now2 : Nat)
    (n : String) (hpresent : hasName db.uniques n = true)
    (hn1 : n ∈ names) (hn2 : n ∈ entries.map (fun e => e.exam_name)) :
    (∀ db1, (saveUnique (some db) (some names) ab now).2 = some db1 →
      db1.uniques.filter (fun r => r.exam_name == n) =
        db.uniques.filter (fun r => r.exam_name == n)) ∧
    (∀ db2, (uniqueEndpoint (some db) (some entries) now2).2 = some db2 →
      db2.uniques.filter (fun r => r.exam_name == n) =
        db.uniques.filter (fun r => r.exam_name == n)) := by
  constructor
  · intro db1 hdb1
    by_cases h : (names.length == 0) = true
    · simp only [saveUnique, h, if_true, Option.some.injEq] at hdb1
      rw [← hdb1]
    · simp only [saveUnique, h] at hdb1
      simp only [Bool.false_eq_true, if_false, Option.some.injEq] at hdb1
      rw [← hdb1]
      exact filter_bulk_of_present db.uniques _ n hpresent
  · intro db2 hdb2
    by_cases h : (entries.length == 0) = true
    · simp only [uniqueEndpoint, h, if_true, Option.some.injEq] at hdb2
      rw [← hdb2]
    · simp only [uniqueEndpoint, h] at hdb2
      simp only [Bool.false_eq_true, if_false, Option.some.injEq] at hdb2
      rw [← hdb2]
      exact filter_bulk_of_present db.uniques _ n hpresent

/-- Witness for C1: re-registering Glucosa over a store already holding
a Glucosa record with code ABC added by Luis at time 5, through both
bulk endpoints and with a different added_by and exam_code, returns the
store unchanged and keeps the record matching Glucosa intact. -/
theorem C1_registry_write_once_witness :
    (saveUnique (some ⟨[], [⟨"Glucosa", "ABC", some "Luis", 5⟩]⟩)
        (some ["Glucosa"]) (some "Ana") 7).2 =
      some ⟨[], [⟨"Glucosa", "ABC", some "Luis", 5⟩]⟩ ∧
    (uniqueEndpoint (some ⟨[], [⟨"Glucosa", "ABC", some "Luis", 5⟩]⟩)
        (some [⟨"Glucosa", some "XYZ"⟩]) 9).2 =
      some ⟨[], [⟨"Glucosa", "ABC", some "Luis", 5⟩]⟩ ∧
    (⟨[], [⟨"Glucosa", "ABC", some "Luis", 5⟩]⟩ : DB).uniques.filter
        (fun r => r.exam_name == "Glucosa") =
      [⟨"Glucosa", "ABC", some "Luis", 5⟩] := by
  refine ⟨rfl, rfl, ?_⟩
  have h := C1_registry_write_once ⟨[], [⟨"Glucosa", "ABC", some "Luis", 5⟩]⟩
    ["Glucosa"] [⟨"Glucosa", some "XYZ"⟩] (some "Ana") 7 9 "Glucosa"
    (by decide) (by decide) (by decide)
  have h1 := h.1 ⟨[], [⟨"Glucosa", "ABC", some "Luis", 5⟩]⟩ rfl
  rw [← h1]
  rfl

/-- C3: a batch containing the same previously-unstored exam_name twice
leaves, after the bulk operation, exactly one stored record for that name,
and the returned inserted count equals the number of records actually
appended, so that name is counted exactly once; this holds for both bulk
endpoints. -/
theorem C3_duplicate_in_batch (db : DB) (names : List String)
    (entries : List ExamEntry) (ab : Option String) (now now2 : Nat)
    (n : String) (habsent : hasName db.uniques n = false)
    (htwice : (names.filter (fun m => m == n)).length = 2)
    (htwiceE : (entries.filter (fun e => e.exam_name == n)).length = 2) :
    (∃ db1, (saveUnique (some db) (some names) ab now).2 = some db1 ∧
      countName db1.uniques n = 1 ∧
      db1.uniques.length =
        db.uniques.length +
          (saveUnique (some db) (some names) ab now).1.inserted) ∧
    (∃ db2, (uniqueEndpoint (some db) (some entries) now2).2 = some db2 ∧
      countName db2.uniques n = 1 ∧
      db2.uniques.length =
        db.uniques.length +
          (uniqueEndpoint (some db) (some entries) now2).1.inserted) := by
  constructor
  · have hne : (names.length == 0) = false := by
      rw [beq_eq_false_iff_ne]
      intro hlen
      rw [List.length_eq_zero] at hlen
      subst hlen
      simp at htwice
    have hmem : names.any (fun m => m == n) = true := by
      have : names.filter (fun m => m == n) ≠ [] := by
        intro hnil
        rw [hnil] at htwice
        simp at htwice
      rcases List.exists_mem_of_ne_nil _ this with ⟨m, hm⟩
      have := List.mem_filter.mp hm
      exact List.any_eq_true.mpr ⟨m, this.1, this.2⟩
    obtain ⟨t, h1, h2, _⟩ := bulk_spec
      (names.map (fun nm =>
        UniqueExamRecord.mk nm "N/A" (some (jsOr ab "Sistema")) now))
      db.uniques
    refine ⟨⟨db.classifications,
      (bulkSetOnInsert db.uniques (names.map (fun nm =>
        UniqueExamRecord.mk nm "N/A" (some (jsOr ab "Sistema")) now))).1⟩,
      ?_, ?_, ?_⟩
    · simp [saveUnique, hne]
    · have hcnt := bulk_countName_new
        (names.map (fun nm =>
          UniqueExamRecord.mk nm "N/A" (some (jsOr ab "Sistema")) now)) n
        db.uniques habsent
      have hany : ((names.map (fun nm =>
          UniqueExamRecord.mk nm "N/A" (some (jsOr ab "Sistema")) now)).any
            (fun r => r.exam_name == n)) = true := by
        rcases List.any_eq_true.mp hmem with ⟨m, hm, hmn⟩
        exact List.any_eq_true.mpr ⟨_, List.mem_map_of_mem _ hm, hmn⟩
      rw [hcnt, hany]
      simp
    · simp only [saveUnique, hne]
      simp only [Bool.false_eq_true, if_false]
      simp [h1, h2]
  · have hne : (entries.length == 0) = false := by
      rw [beq_eq_false_iff_ne]
      intro hlen
      rw [List.length_eq_zero] at hlen
      subst hlen
      simp at htwiceE
    have hmem : entries.any (fun e => e.exam_name == n) = true := by
      have : entries.filter (fun e => e.exam_name == n) ≠ [] := by
        intro hnil
        rw [hnil] at htwiceE
        simp at htwiceE
      rcases List.exists_mem_of_ne_nil _ this with ⟨m, hm⟩
      have := List.mem_filter.mp hm
      exact List.any_eq_true.mpr ⟨m, this.1, this.2⟩
    obtain ⟨t, h1, h2, _⟩ := bulk_spec
      (entries.map (fun e =>
        UniqueExamRecord.mk e.exam_name (jsOr e.exam_code "N/A") none now2))
      db.uniques
    refine ⟨⟨db.classifications,
      (bulkSetOnInsert db.uniques (entries.map (fun e =>
        UniqueExamRecord.mk e.exam_name (jsOr e.exam_code "N/A") none
          now2))).1⟩, ?_, ?_, ?_⟩
    · simp [uniqueEndpoint, hne]
    · have hcnt := bulk_countName_new
        (entries.map (fun e =>
          UniqueExamRecord.mk e.exam_name (jsOr e.exam_code "N/A") none now2))
        n db.uniques habsent
      have hany : ((entries.map (fun e =>
          UniqueExamRecord.mk e.exam_name (jsOr e.exam_code "N/A") none
            now2)).any (fun r => r.exam_name == n)) = true := by
        rcases List.any_eq_true.mp hmem with ⟨m, hm, hmn⟩
        exact List.any_eq_true.mpr ⟨_, List.mem_map_of_mem _ hm, hmn⟩
      rw [hcnt, hany]
      simp
    · simp only [uniqueEndpoint, hne]
      simp only [Bool.false_eq_true, if_false]
      simp [h1, h2]

/-- Witness for C3: submitting Glucosa twice in one batch to an empty
store, through both bulk endpoints, stores exactly one Glucosa record and
the inserted count accounts for each appended record once. -/
theorem C3_duplicate_in_batch_witness :
    hasName ([] : List UniqueExamRecord) "Glucosa" = false ∧
    (∃ db1, (saveUnique (some ⟨[], []⟩) (some ["Glucosa", "Glucosa"])
        (some "Ana") 3).2 = some db1 ∧
      countName db1.uniques "Glucosa" = 1 ∧
      db1.uniques.length = ([] : List UniqueExamRecord).length +
        (saveUnique (some ⟨[], []⟩) (some ["Glucosa", "Glucosa"])
          (some "Ana") 3).1.inserted) ∧
    (∃ db2, (uniqueEndpoint (some ⟨[], []⟩)
        (some [⟨"Glucosa", none⟩, ⟨"Glucosa", some "G2"⟩]) 4).2 = some db2 ∧
      countName db2.uniques "Glucosa" = 1 ∧
      db2.uniques.length = ([] : List UniqueExamRecord).length +
        (uniqueEndpoint (some ⟨[], []⟩)
          (some [⟨"Glucosa", none⟩, ⟨"Glucosa", some "G2"⟩]) 4).1.inserted) := by
  have h := C3_duplicate_in_batch ⟨[], []⟩ ["Glucosa", "Glucosa"]
    [⟨"Glucosa", none⟩, ⟨"Glucosa", some "G2"⟩] (some "Ana") 3 4 "Glucosa"
    (by decide) (by decide) (by decide)
  exact ⟨rfl, h.1, h.2⟩

/-- C9: submitting the same non-empty name batch to POST
/api/exams/save-unique twice in a row makes the second call answer 200
with processed_count equal to the batch length and inserted_count 0. -/
theorem C9_second_submission_no_insert (db : DB) (names : List String)
    (ab ab2 : Option String) (now now2 : Nat) (hne : names ≠ []) :
    (saveUnique (saveUnique (some db) (some names) ab now).2
        (some names) ab2 now2).1 = ⟨200, names.length, 0⟩ := by
  have hlen : (names.length == 0) = false := by
    rw [beq_eq_false_iff_ne]
    simpa using hne
  have hst1 : (saveUnique (some db) (some names) ab now).2 =
      some { db with uniques := (bulkSetOnInsert db.uniques
        (names.map (fun nm =>
          UniqueExamRecord.mk nm "N/A" (some (jsOr ab "Sistema")) now))).1 } := by
    simp only [saveUnique, hlen]
    simp only [Bool.false_eq_true, if_false]
  have hall : ∀ r ∈ names.map (fun nm =>
      UniqueExamRecord.mk nm "N/A" (some (jsOr ab2 "Sistema")) now2),
      hasName (bulkSetOnInsert db.uniques
        (names.map (fun nm =>
          UniqueExamRecord.mk nm "N/A" (some (jsOr ab "Sistema")) now))).1
        r.exam_name = true := by
    intro r hr
    obtain ⟨nm, hnm, rfl⟩ := List.mem_map.mp hr
    exact bulk_names_after _ db.uniques
      (UniqueExamRecord.mk nm "N/A" (some (jsOr ab "Sistema")) now)
      (List.mem_map_of_mem
        (fun nm => UniqueExamRecord.mk nm "N/A" (some (jsOr ab "Sistema")) now)
        hnm)
  have hbulk := bulk_of_all_present _ _ hall
  rw [hst1]
  simp only [saveUnique, hlen]
  simp only [Bool.false_eq_true, if_false]
  rw [hbulk]

/-- Witness for C9: posting the batch of Glucosa and Urea twice in a row
against an empty store makes the second call report two processed names
and zero inserted. -/
theorem C9_second_submission_no_insert_witness :
    (["Glucosa", "Urea"] : List String) ≠ [] ∧
    (saveUnique (saveUnique (some ⟨[], []⟩) (some ["Glucosa", "Urea"])
        (some "Ana") 1).2 (some ["Glucosa", "Urea"]) (some "Ana") 2).1 =
      ⟨200, 2, 0⟩ :=
  ⟨by decide, C9_second_submission_no_insert ⟨[], []⟩ ["Glucosa", "Urea"]
    (some "Ana") (some "Ana") 1 2 (by decide)⟩

/-- C10: every registry record created through POST /api/exams/unique
carries no added_by field at all, while every record created through POST
/api/exams/save-unique carries added_by defaulted through the expression
added_by || Sistema. -/
theorem C10_added_by_per_variant (db : DB) (entries : List ExamEntry)
    (names : List String) (ab : Option String) (now now2 : Nat) :
    (∀ db1, (uniqueEndpoint (some db) (some entries) now).2 = some db1 →
      ∀ r ∈ db1.uniques, r ∉ db.uniques → r.added_by = none) ∧
    (∀ db2, (saveUnique (some db) (some names) ab now2).2 = some db2 →
      ∀ r ∈ db2.uniques, r ∉ db.uniques →
        r.added_by = some (jsOr ab "Sistema")) := by
  constructor
  · intro db1 hdb1 r hr hnew
    by_cases h : (entries.length == 0) = true
    · simp only [uniqueEndpoint, h, if_true, Option.some.injEq] at hdb1
      rw [← hdb1] at hr
      exact absurd hr hnew
    · simp only [uniqueEndpoint, h] at hdb1
      simp only [Bool.false_eq_true, if_false, Option.some.injEq] at hdb1
      obtain ⟨t, h1, _, h3⟩ := bulk_spec
        (entries.map (fun e =>
          UniqueExamRecord.mk e.exam_name (jsOr e.exam_code "N/A") none now))
        db.uniques
      rw [← hdb1] at hr
      simp only at hr
      rw [h1] at hr
      rcases List.mem_append.mp hr with hr | hr
      · exact absurd hr hnew
      · obtain ⟨e, _, rfl⟩ := List.mem_map.mp (h3 r hr).1
        rfl
  · intro db2 hdb2 r hr hnew
    by_cases h : (names.length == 0) = true
    · simp only [saveUnique, h, if_true, Option.some.injEq] at hdb2
      rw [← hdb2] at hr
      exact absurd hr hnew
    · simp only [saveUnique, h] at hdb2
      simp only [Bool.false_eq_true, if_false, Option.some.injEq] at hdb2
      obtain ⟨t, h1, _, h3⟩ := bulk_spec
        (names.map (fun nm =>
          UniqueExamRecord.mk nm "N/A" (some (jsOr ab "Sistema")) now2))
        db.uniques
      rw [← hdb2] at hr
      simp only at hr
      rw [h1] at hr
      rcases List.mem_append.mp hr with hr | hr
      · exact absurd hr hnew
      · obtain ⟨nm, _, rfl⟩ := List.mem_map.mp (h3 r hr).1
        rfl

/-- Witness for C10: inserting Urea through POST /api/exams/unique into an
empty store creates a record with no added_by, and inserting Glucosa
through POST /api/exams/save-unique with no added_by creates a record
whose added_by is the Sistema default. -/
theorem C10_added_by_per_variant_witness :
    (UniqueExamRecord.mk "Urea" "U1" none 3).added_by = none ∧
    (UniqueExamRecord.mk "Glucosa" "N/A" (some "Sistema") 4).added_by =
      some "Sistema" := by
  have h := C10_added_by_per_variant ⟨[], []⟩ [⟨"Urea", some "U1"⟩]
    ["Glucosa"] none 3 4
  refine ⟨?_, ?_⟩
  · exact h.1 ⟨[], [⟨"Urea", "U1", none, 3⟩]⟩ rfl
      ⟨"Urea", "U1", none, 3⟩ (by decide) (by decide)
  · exact h.2 ⟨[], [⟨"Glucosa", "N/A", some "Sistema", 4⟩]⟩ rfl
      ⟨"Glucosa", "N/A", some "Sistema", 4⟩ (by decide) (by decide)

end ExamDB
